import Mathlib

/-!
Shallow embedding of `pkg/queue/queue.go` (package `queue`): an in-memory
FIFO message queue backed by a singly linked node chain with a sentinel
tail node, `int64` message offsets, and a count/age retention (cleanup)
policy.

Modelling conventions:
* Go `int64` arithmetic is `Int` arithmetic followed by `wrap64`, which
  reduces into the signed 64-bit range `[-2^63, 2^63)`.
* `time.Time` / `time.Duration` are modelled as `Int` (nanoseconds);
  `time.Now()` becomes an explicit `now` parameter threaded into each
  operation that reads the clock.
* The node chain from `head` to `tail` of an initialized queue is the list
  `msgs ++ [tailMsg]`: `msgs` are the filled nodes (head first) and
  `tailMsg` is the message of the sentinel tail node.  A zero-value
  `Queue{}` (head = tail = nil) is modelled by `st = none`.
* A nil-pointer dereference in Go is modelled by the `Outcome.panic`
  result; mutation of the receiver is modelled by returning the updated
  `Queue` alongside the Go return values.
-/

/-- The error values declared at the top of `queue.go`. -/
inductive QError where
  | queueIsEmpty
  | improperlyInitialized
  | unimplemented
  | invalidLimit
  | invalidConfig
deriving DecidableEq, Repr

/-- Result of a Go method call: a normal return value, a returned non-nil
`error`, or a runtime panic (nil dereference / bad `make`). -/
inductive Outcome (α : Type) where
  | ok (a : α)
  | err (e : QError)
  | panic
deriving DecidableEq, Repr

/-- Go struct `Message`: payload, `int64` offset and append timestamp. -/
structure Message where
  val : String := ""
  offset : Int := 0
  logAppendTime : Int := 0
deriving DecidableEq, Repr

/-- Go struct `QueueConfig` with its four (unexported) fields. -/
structure QueueConfig where
  name : String := ""
  retentionCount : Int := 0
  retentionTime : Int := 0
  autoCleanup : Bool := false
deriving DecidableEq, Repr

/-- The state of an initialized queue: the filled nodes from `head` up to
(but excluding) `tail`, plus the sentinel tail node's message. -/
structure QState where
  msgs : List Message
  tailMsg : Message
deriving DecidableEq, Repr

/-- Go struct `Queue`.  `st = none` models `head = tail = nil`, i.e. a
manually created zero-value `Queue{}`. -/
structure Queue where
  st : Option QState
  config : QueueConfig
deriving DecidableEq, Repr

/-- Reduce an integer into the signed 64-bit range, as Go `int64`
arithmetic does (two's complement wraparound). -/
def wrap64 (n : Int) : Int :=
  (n + 9223372036854775808) % 18446744073709551616 - 9223372036854775808

/-- The unsigned 64-bit value (bit pattern) of a signed 64-bit offset. -/
def toUnsigned (n : Int) : Int := n % 18446744073709551616

/-- Go `math.MaxInt` on a 64-bit platform. -/
def maxInt : Int := 9223372036854775807

/-- The message of the node `head` points to: the first filled node, or
the sentinel itself when the queue is empty (`head == tail`). -/
def headMsg (s : QState) : Message := s.msgs.headD s.tailMsg

/-- `isEmptyNoLock`: `q.head.message.Offset == q.tail.message.Offset`. -/
def isEmptyNoLock (s : QState) : Bool :=
  (headMsg s).offset == s.tailMsg.offset

/-- `lengthNoLock`: `q.tail.message.Offset - q.head.message.Offset`
(`int64` subtraction, hence `wrap64`). -/
def lengthNoLock (s : QState) : Int :=
  wrap64 (s.tailMsg.offset - (headMsg s).offset)

/-- The loop body of `AddMany`: for each value, fill the current tail
node (keeping its offset, overwriting value and append time), allocate a
new sentinel whose offset is the old tail's offset + 1 (`int64`
wraparound), link it and advance `tail`. -/
def addLoop (appendTime : Int) : List String → QState → QState
  | [], s => s
  | v :: vs, s =>
      addLoop appendTime vs
        { msgs := s.msgs ++
            [{ val := v, offset := s.tailMsg.offset, logAppendTime := appendTime }],
          tailMsg :=
            { val := "", offset := wrap64 (s.tailMsg.offset + 1), logAppendTime := 0 } }

/-- The second (age-based) loop of `cleanup`: while
`head.message.Offset < tailOffset` (signed `int64` comparison!) and
`currTime - head.message.LogAppendTime > retentionTime`, advance `head`.
Returns the number of nodes dropped and the remaining filled nodes.
When the filled nodes run out, `head` is the sentinel and the offset
comparison is `tailOffset < tailOffset`, which stops the loop. -/
def cleanupLoop (tailOffset currTime retentionTime : Int) :
    List Message → Int × List Message
  | [] => (0, [])
  | m :: rest =>
      if m.offset < tailOffset ∧ currTime - m.logAppendTime > retentionTime then
        let r := cleanupLoop tailOffset currTime retentionTime rest
        (r.1 + 1, r.2)
      else
        (0, m :: rest)

/-- Internal `cleanup` on an initialized queue: first advance `head` past
`toRemove = max(0, length - retentionCount)` nodes, then run the age
loop; return the removed count and the new state.  The pointer walk of
the first pass is modelled by `List.drop`; this is faithful whenever
`toRemove` does not exceed the number of filled nodes (in Go a longer
walk would dereference nil), which holds in every reachable state with a
builder-validated config. -/
def cleanupS (cfg : QueueConfig) (now : Int) (s : QState) : Int × QState :=
  let length := lengthNoLock s
  let toRemove := max 0 (wrap64 (length - cfg.retentionCount))
  let msgs1 := s.msgs.drop toRemove.toNat
  let r := cleanupLoop s.tailMsg.offset now cfg.retentionTime msgs1
  (toRemove + r.1, ⟨r.2, s.tailMsg⟩)

/-- `DefaultConfig()`: name "", retentionCount 1e9, retentionTime 24h
(in nanoseconds), autoCleanup false. -/
def DefaultConfig : QueueConfig :=
  { name := "", retentionCount := 1000000000,
    retentionTime := 86400000000000, autoCleanup := false }

/-- `WithName`: set the name, never fails. -/
def QueueConfig.WithName (config : QueueConfig) (name : String) :
    QueueConfig × Option QError :=
  ({ config with name := name }, none)

/-- `WithRetentionCount`: reject non-positive counts with
`ErrInvalidConfig` (returning the receiver unchanged), else set it. -/
def QueueConfig.WithRetentionCount (config : QueueConfig) (retentionCount : Int) :
    QueueConfig × Option QError :=
  if retentionCount ≤ 0 then (config, some .invalidConfig)
  else ({ config with retentionCount := retentionCount }, none)

/-- `WithRetentionTime`: reject non-positive durations with
`ErrInvalidConfig` (returning the receiver unchanged), else set it. -/
def QueueConfig.WithRetentionTime (config : QueueConfig) (retentionTime : Int) :
    QueueConfig × Option QError :=
  if retentionTime ≤ 0 then (config, some .invalidConfig)
  else ({ config with retentionTime := retentionTime }, none)

/-- `WithAutoCleanup`: set the flag, never fails. -/
def QueueConfig.WithAutoCleanup (config : QueueConfig) (autoCleanup : Bool) :
    QueueConfig × Option QError :=
  ({ config with autoCleanup := autoCleanup }, none)

/-- The state allocated by both constructors: one sentinel node holding a
zero-value `Message`. -/
def newQState : QState := ⟨[], {}⟩

/-- `NewQueue()`: sentinel node plus the default config. -/
def NewQueue : Queue := ⟨some newQState, DefaultConfig⟩

/-- `NewQueueWithConfig(config)`: sentinel node plus the given config. -/
def NewQueueWithConfig (config : QueueConfig) : Queue :=
  ⟨some newQState, config⟩

/-- The Go zero value `Queue{}`: head and tail nil, zero-value config. -/
def zeroQueue : Queue := ⟨none, {}⟩

/-- `IsEmpty()`: lock, cleanup if `autoCleanup`, report
`isEmptyNoLock`.  There is no initialization check: on a zero-value
queue `q.head.message` dereferences nil. -/
def Queue.IsEmpty (q : Queue) (now : Int) : Outcome (Bool × Queue) :=
  match q.st with
  | none => .panic
  | some s0 =>
      let s := if q.config.autoCleanup then (cleanupS q.config now s0).2 else s0
      .ok (isEmptyNoLock s, ⟨some s, q.config⟩)

/-- `Length()`: lock, cleanup if `autoCleanup`, return `lengthNoLock`.
No initialization check: panics on a zero-value queue. -/
def Queue.Length (q : Queue) (now : Int) : Outcome (Int × Queue) :=
  match q.st with
  | none => .panic
  | some s0 =>
      let s := if q.config.autoCleanup then (cleanupS q.config now s0).2 else s0
      .ok (lengthNoLock s, ⟨some s, q.config⟩)

/-- `AddMany(vals)`: lock, return `ErrImproperlyInitializedQueue` when
`q.tail == nil`, otherwise run the append loop with a single
`time.Now()` timestamp and finish with cleanup if `autoCleanup`. -/
def Queue.AddMany (q : Queue) (vals : List String) (now : Int) : Outcome Queue :=
  match q.st with
  | none => .err .improperlyInitialized
  | some s0 =>
      let s1 := addLoop now vals s0
      let s2 := if q.config.autoCleanup then (cleanupS q.config now s1).2 else s1
      .ok ⟨some s2, q.config⟩

/-- `Add(val)`: delegates to `AddMany([val])`. -/
def Queue.Add (q : Queue) (val : String) (now : Int) : Outcome Queue :=
  q.AddMany [val] now

/-- `ReadMany(limit)`: reject non-positive limits before anything else;
lock; cleanup if `autoCleanup`; clamp the limit to the current length
when the length fits in `int` (on a 64-bit platform `length ≤ maxInt`
is always true for an `int64` length); fail on an empty queue; then
copy `limit` messages walking from `head` and advance `head` past them.
`make([]Message, limit)` with a negative clamped limit, or a walk past
the end of the node chain, panics. -/
def Queue.ReadMany (q : Queue) (limit : Int) (now : Int) :
    Outcome (List Message × Queue) :=
  if limit ≤ 0 then .err .invalidLimit
  else
    match q.st with
    | none => .panic
    | some s0 =>
        let s := if q.config.autoCleanup then (cleanupS q.config now s0).2 else s0
        let length := lengthNoLock s
        let limit' := if length ≤ maxInt then min limit length else limit
        if isEmptyNoLock s then .err .queueIsEmpty
        else if limit' < 0 then .panic
        else if s.msgs.length < limit'.toNat then .panic
        else
          .ok (s.msgs.take limit'.toNat,
               ⟨some ⟨s.msgs.drop limit'.toNat, s.tailMsg⟩, q.config⟩)

/-- `Read()`: call `ReadMany(1)`, propagate its error, else return the
first element of the slice (`res[0]` panics on an empty slice). -/
def Queue.Read (q : Queue) (now : Int) : Outcome (Message × Queue) :=
  match q.ReadMany 1 now with
  | .ok ([], _) => .panic
  | .ok (m :: _, q') => .ok (m, q')
  | .err e => .err e
  | .panic => .panic

/-- `PeekNext()`: lock, cleanup if `autoCleanup`, fail when empty, else
return a copy of `head`'s message without advancing `head`.  No
initialization check: panics on a zero-value queue. -/
def Queue.PeekNext (q : Queue) (now : Int) : Outcome (Message × Queue) :=
  match q.st with
  | none => .panic
  | some s0 =>
      let s := if q.config.autoCleanup then (cleanupS q.config now s0).2 else s0
      if isEmptyNoLock s then .err .queueIsEmpty
      else .ok (headMsg s, ⟨some s, q.config⟩)

/-- `PeekLast()`: unimplemented stub. -/
def Queue.PeekLast (_ : Queue) : Outcome Message := .err .unimplemented

/-- `Cleanup()`: lock and run the internal cleanup, returning the count
of deleted messages.  No initialization check: panics on a zero-value
queue. -/
def Queue.Cleanup (q : Queue) (now : Int) : Outcome (Int × Queue) :=
  match q.st with
  | none => .panic
  | some s =>
      let r := cleanupS q.config now s
      .ok (r.1, ⟨some r.2, q.config⟩)

/-! ## Well-formedness of queue states

`WF` captures the shape every state reachable from a constructor has:
node offsets are consecutive modulo 2^64 (stored as signed 64-bit
values), the sentinel's offset continues the sequence, and fewer than
2^63 messages are held.  `NoWrapWF` is the stronger, wraparound-free
shape that holds until 2^63 messages have ever been enqueued. -/

/-- The offset of the node `head` points to. -/
def headOff (s : QState) : Int := (headMsg s).offset

/-- A signed 64-bit representable integer. -/
def inRange64 (n : Int) : Prop :=
  -9223372036854775808 ≤ n ∧ n < 9223372036854775808

instance (n : Int) : Decidable (inRange64 n) := by
  unfold inRange64; infer_instance

/-- Offsets of a node list are consecutive modulo 2^64 starting at `b`. -/
def consecFrom (b : Int) : List Message → Prop
  | [] => True
  | m :: rest => m.offset = wrap64 b ∧ consecFrom (b + 1) rest

/-- Offsets of a node list are exactly `b, b+1, …` with no wraparound. -/
def consecExact (b : Int) : List Message → Prop
  | [] => True
  | m :: rest => m.offset = b ∧ consecExact (b + 1) rest

def decConsecFrom : (b : Int) → (l : List Message) → Decidable (consecFrom b l)
  | _, [] => isTrue trivial
  | b, m :: rest =>
      haveI := decConsecFrom (b + 1) rest
      decidable_of_iff (m.offset = wrap64 b ∧ consecFrom (b + 1) rest) Iff.rfl

instance (b : Int) (l : List Message) : Decidable (consecFrom b l) :=
  decConsecFrom b l

def decConsecExact : (b : Int) → (l : List Message) → Decidable (consecExact b l)
  | _, [] => isTrue trivial
  | b, m :: rest =>
      haveI := decConsecExact (b + 1) rest
      decidable_of_iff (m.offset = b ∧ consecExact (b + 1) rest) Iff.rfl

instance (b : Int) (l : List Message) : Decidable (consecExact b l) :=
  decConsecExact b l

/-- Invariant of every state reachable from a constructor. -/
def WF (s : QState) : Prop :=
  inRange64 (headOff s) ∧
  consecFrom (headOff s) s.msgs ∧
  s.tailMsg.offset = wrap64 (headOff s + s.msgs.length) ∧
  (s.msgs.length : Int) < 9223372036854775808

instance (s : QState) : Decidable (WF s) := by
  unfold WF; infer_instance

/-- Wraparound-free well-formedness: offsets did not yet pass the signed
64-bit boundary. -/
def NoWrapWF (s : QState) : Prop :=
  consecExact (headOff s) s.msgs ∧
  s.tailMsg.offset = headOff s + s.msgs.length ∧
  -9223372036854775808 ≤ headOff s ∧
  headOff s + s.msgs.length < 9223372036854775808 ∧
  (s.msgs.length : Int) < 9223372036854775808

instance (s : QState) : Decidable (NoWrapWF s) := by
  unfold NoWrapWF; infer_instance

/-- State shape after enqueueing exactly the values `V` (in batches, in
order) into a fresh queue and reading nothing: the stored values are
`V`, the head offset is still 0 and the sentinel offset is `|V|`. -/
def goodState (V : List String) (s : QState) : Prop :=
  s.msgs.map (fun m => m.val) = V ∧ headOff s = 0 ∧
  s.tailMsg.offset = (V.length : Int)

/-- Run a list of `AddMany` batches (values plus call time) in order,
stopping at the first error, as a sequence of API calls would. -/
def runAdds (q : Queue) : List (List String × Int) → Outcome Queue
  | [] => .ok q
  | b :: rest =>
      match q.AddMany b.1 b.2 with
      | .ok q' => runAdds q' rest
      | .err e => .err e
      | .panic => .panic

/-- Modelled from the spec: the age-based cleanup pass as the spec words
it -- "while `head.offset != tail.offset` AND `now - head.message.appendTime
> retentionTime`, advance `head` by one node and increment removed count".
It differs from `cleanupLoop` only in using `≠` where the code uses `<`. -/
def specCleanupLoop (tailOffset currTime retentionTime : Int) :
    List Message → Int × List Message
  | [] => (0, [])
  | m :: rest =>
      if m.offset ≠ tailOffset ∧ currTime - m.logAppendTime > retentionTime then
        let r := specCleanupLoop tailOffset currTime retentionTime rest
        (r.1 + 1, r.2)
      else
        (0, m :: rest)

/-- Modelled from the spec: the full cleanup algorithm as the spec words
it -- advance `head` by `excess = max(0, length - retentionCount)` nodes,
then run the age pass with the `≠` comparison, returning the total
number of nodes `head` was advanced. -/
def specCleanup (cfg : QueueConfig) (now : Int) (s : QState) : Int × QState :=
  let excess := max 0 (lengthNoLock s - cfg.retentionCount)
  let msgs1 := s.msgs.drop excess.toNat
  let r := specCleanupLoop s.tailMsg.offset now cfg.retentionTime msgs1
  (excess + r.1, ⟨r.2, s.tailMsg⟩)

/-- A reachable queue state at the signed-64-bit boundary: one message
whose offset is 2^63 - 1 while the sentinel offset has wrapped to
-2^63.  It arises from a fresh queue after 2^63 enqueues and 2^63 - 1
reads. -/
def sBoundary : QState :=
  ⟨[⟨"a", 9223372036854775807, 0⟩], ⟨"", -9223372036854775808, 0⟩⟩

/-- A config with a tiny retention time and a huge retention count, so
cleanup is driven by message age alone. -/
def cfgAge : QueueConfig := ⟨"", 1000000000, 1, false⟩

/-- A queue holding one message whose head/tail offsets are the `int64`
bit patterns (-2, -1), i.e. the unsigned values (2^64 - 2, 2^64 - 1). -/
def qWrapA : Queue := ⟨some ⟨[⟨"a", -2, 5⟩], ⟨"", -1, 0⟩⟩, DefaultConfig⟩

/-- `qWrapA` after its single message has been read. -/
def qWrapB : Queue := ⟨some ⟨[], ⟨"", -1, 0⟩⟩, DefaultConfig⟩

/-- `qWrapB` after one further enqueue: the enqueue filled the sentinel
at unsigned offset 2^64 - 1 and the new sentinel offset wrapped to 0. -/
def qWrapC : Queue := ⟨some ⟨[⟨"b", -1, 9⟩], ⟨"", 0, 0⟩⟩, DefaultConfig⟩

/-- The config built by
`DefaultConfig().WithRetentionCount(1).WithAutoCleanup(true)`. -/
def cfgAuto : QueueConfig := ⟨"", 1, 86400000000000, true⟩

/-- The queue left by enqueueing ["a", "b"] at time 0 into a fresh queue
configured with `cfgAuto`: auto-cleanup retained only "b". -/
def qAuto : Queue := ⟨some ⟨[⟨"b", 1, 0⟩], ⟨"", 2, 0⟩⟩, cfgAuto⟩

/-! ## Arithmetic lemmas about `wrap64` -/

lemma wrap64_range (n : Int) : inRange64 (wrap64 n) := by
  unfold wrap64 inRange64
  omega

lemma wrap64_eq_self {n : Int} (h : inRange64 n) : wrap64 n = n := by
  unfold wrap64
  unfold inRange64 at h
  omega

lemma wrap64_wrap_add (a b : Int) : wrap64 (wrap64 a + b) = wrap64 (a + b) := by
  unfold wrap64
  omega

lemma wrap64_add_wrap (a b : Int) : wrap64 (a + wrap64 b) = wrap64 (a + b) := by
  unfold wrap64
  omega

lemma wrap64_idem (a : Int) : wrap64 (wrap64 a) = wrap64 a := by
  have := wrap64_wrap_add a 0
  simpa using this

lemma wrap64_inj_small {a : Int} (ha : inRange64 a) {b : Int} (hb : inRange64 b)
    (h : wrap64 a = wrap64 b) : a = b := by
  rw [wrap64_eq_self ha, wrap64_eq_self hb] at h
  exact h

/-! ## Structure lemmas about `consecFrom` and `WF` -/

lemma consecFrom_congr {b b' : Int} (h : wrap64 b = wrap64 b') :
    ∀ {l : List Message}, consecFrom b l → consecFrom b' l := by
  intro l
  induction l generalizing b b' with
  | nil => intro _; trivial
  | cons m rest ih =>
      intro hc
      obtain ⟨hm, hrest⟩ := hc
      refine ⟨hm.trans h, ih ?_ hrest⟩
      calc wrap64 (b + 1) = wrap64 (wrap64 b + 1) := (wrap64_wrap_add b 1).symm
        _ = wrap64 (wrap64 b' + 1) := by rw [h]
        _ = wrap64 (b' + 1) := wrap64_wrap_add b' 1

lemma consecFrom_append {b : Int} {l : List Message} (hc : consecFrom b l)
    {m : Message} (hm : m.offset = wrap64 (b + l.length)) :
    consecFrom b (l ++ [m]) := by
  induction l generalizing b with
  | nil => exact ⟨by simpa using hm, trivial⟩
  | cons x rest ih =>
      obtain ⟨hx, hrest⟩ := hc
      refine ⟨hx, ih hrest ?_⟩
      rw [hm, List.length_cons]
      congr 1
      push_cast
      ring

lemma consecFrom_drop {b : Int} {l : List Message} (hc : consecFrom b l)
    (k : ℕ) : consecFrom (b + k) (l.drop k) := by
  induction k generalizing b l with
  | zero => simpa using hc
  | succ n ih =>
      cases l with
      | nil => simp [consecFrom]
      | cons m rest =>
          obtain ⟨_, hrest⟩ := hc
          have h2 := ih hrest
          rw [List.drop_succ_cons]
          have hb : b + ((n + 1 : ℕ) : Int) = b + 1 + (n : Int) := by
            push_cast
            ring
          rw [hb]
          exact h2

lemma consecExact_offsets {b : Int} :
    ∀ {l : List Message}, consecExact b l →
      ∀ m ∈ l, b ≤ m.offset ∧ m.offset < b + l.length := by
  intro l
  induction l generalizing b with
  | nil => intro _ m hm; cases hm
  | cons x rest ih =>
      intro hc m hm
      obtain ⟨hx, hrest⟩ := hc
      rcases List.mem_cons.mp hm with rfl | hm'
      · constructor
        · exact le_of_eq hx.symm
        · rw [hx, List.length_cons]
          push_cast
          omega
      · have h3 := ih hrest m hm'
        rw [List.length_cons]
        push_cast
        push_cast at h3
        omega

lemma WF_length {s : QState} (h : WF s) : lengthNoLock s = s.msgs.length := by
  obtain ⟨hr, _, ht, hlt⟩ := h
  unfold lengthNoLock
  rw [ht]
  have h1 : wrap64 (wrap64 (headOff s + s.msgs.length) - (headMsg s).offset)
      = wrap64 (headOff s + s.msgs.length - (headMsg s).offset) := by
    rw [sub_eq_add_neg, wrap64_wrap_add, ← sub_eq_add_neg]
  rw [h1]
  have h2 : headOff s + (s.msgs.length : Int) - (headMsg s).offset
      = (s.msgs.length : Int) := by
    unfold headOff
    ring
  rw [h2]
  exact wrap64_eq_self ⟨by omega, hlt⟩

lemma WF_isEmpty {s : QState} (h : WF s) :
    isEmptyNoLock s = true ↔ s.msgs = [] := by
  constructor
  · intro he
    unfold isEmptyNoLock at he
    have hoff : (headMsg s).offset = s.tailMsg.offset := by
      exact beq_iff_eq.mp he
    have hlen : lengthNoLock s = 0 := by
      unfold lengthNoLock
      rw [hoff]
      simp [wrap64]
    rw [WF_length h] at hlen
    have : s.msgs.length = 0 := by exact_mod_cast hlen
    exact List.length_eq_zero.mp this
  · intro he
    unfold isEmptyNoLock headMsg
    rw [he]
    simp

lemma WF_notEmpty {s : QState} (h : WF s) (hne : s.msgs ≠ []) :
    isEmptyNoLock s = false := by
  rcases Bool.eq_false_or_eq_true (isEmptyNoLock s) with hb | hb
  · exact absurd ((WF_isEmpty h).mp hb) hne
  · exact hb

lemma headOff_addOne (s : QState) (v : String) (t : Int) :
    headOff ⟨s.msgs ++ [⟨v, s.tailMsg.offset, t⟩],
             ⟨"", wrap64 (s.tailMsg.offset + 1), 0⟩⟩ = headOff s := by
  cases hm : s.msgs with
  | nil => simp [headOff, headMsg, hm]
  | cons m rest => simp [headOff, headMsg, hm]

lemma WF_addOne {s : QState} (h : WF s)
    (hlen : (s.msgs.length : Int) + 1 < 9223372036854775808) (v : String) (t : Int) :
    WF ⟨s.msgs ++ [⟨v, s.tailMsg.offset, t⟩],
        ⟨"", wrap64 (s.tailMsg.offset + 1), 0⟩⟩ := by
  obtain ⟨hr, hc, ht, hb⟩ := h
  have hh := headOff_addOne s v t
  refine ⟨?_, ?_, ?_, ?_⟩
  · rw [hh]; exact hr
  · rw [hh]
    exact consecFrom_append hc (by simpa using ht)
  · show wrap64 (s.tailMsg.offset + 1) = _
    rw [hh, ht, wrap64_wrap_add]
    congr 1
    simp only [List.length_append, List.length_cons, List.length_nil]
    push_cast
    ring
  · simp only [List.length_append, List.length_cons, List.length_nil]
    push_cast
    omega

lemma WF_addLoop {s : QState} (h : WF s) (vs : List String) (t : Int)
    (hlen : (s.msgs.length : Int) + vs.length < 9223372036854775808) :
    WF (addLoop t vs s) ∧
    (addLoop t vs s).msgs.length = s.msgs.length + vs.length ∧
    headOff (addLoop t vs s) = headOff s := by
  induction vs generalizing s with
  | nil => simpa [addLoop] using h
  | cons v rest ih =>
      have hb1 : (s.msgs.length : Int) + 1 < 9223372036854775808 := by
        simp only [List.length_cons] at hlen
        push_cast at hlen
        omega
      have h1 := WF_addOne h hb1 v t
      have hlen1 : ((s.msgs ++ [(⟨v, s.tailMsg.offset, t⟩ : Message)]).length : Int)
          + rest.length < 9223372036854775808 := by
        simp only [List.length_append, List.length_cons, List.length_nil]
        simp only [List.length_cons] at hlen
        push_cast at hlen ⊢
        omega
      have h2 := ih h1 hlen1
      refine ⟨h2.1, ?_, h2.2.2.trans (headOff_addOne s v t)⟩
      show (addLoop t rest _).msgs.length = _
      rw [h2.2.1]
      simp [List.length_append]
      omega

lemma cleanupLoop_spec (toff now rt : Int) :
    ∀ l : List Message,
      0 ≤ (cleanupLoop toff now rt l).1 ∧
      (cleanupLoop toff now rt l).1.toNat ≤ l.length ∧
      (cleanupLoop toff now rt l).2 = l.drop (cleanupLoop toff now rt l).1.toNat
  | [] => by simp [cleanupLoop]
  | m :: rest => by
      have ih := cleanupLoop_spec toff now rt rest
      by_cases hcond : m.offset < toff ∧ now - m.logAppendTime > rt
      · have hstep : cleanupLoop toff now rt (m :: rest)
            = ((cleanupLoop toff now rt rest).1 + 1,
               (cleanupLoop toff now rt rest).2) := by
          conv_lhs => unfold cleanupLoop
          rw [if_pos hcond]
        rw [hstep]
        obtain ⟨h0, h1, h2⟩ := ih
        refine ⟨by omega, ?_, ?_⟩
        · simp only [List.length_cons]
          omega
        · have hnat : ((cleanupLoop toff now rt rest).1 + 1).toNat
              = (cleanupLoop toff now rt rest).1.toNat + 1 := by omega
          simp only [hnat, List.drop_succ_cons]
          exact h2
      · have hstep : cleanupLoop toff now rt (m :: rest) = (0, m :: rest) := by
          conv_lhs => unfold cleanupLoop
          rw [if_neg hcond]
        rw [hstep]
        simp

lemma WF_drop {s : QState} (h : WF s) (k : ℕ) :
    WF ⟨s.msgs.drop k, s.tailMsg⟩ := by
  obtain ⟨hr, hc, ht, hb⟩ := h
  have hcd := consecFrom_drop hc k
  cases hl : s.msgs.drop k with
  | nil =>
      refine ⟨?_, trivial, ?_, by simp⟩
      · show inRange64 s.tailMsg.offset
        rw [ht]
        exact wrap64_range _
      · show s.tailMsg.offset = wrap64 (s.tailMsg.offset + ([] : List Message).length)
        simp only [List.length_nil, Nat.cast_zero, add_zero]
        rw [ht, wrap64_idem]
  | cons m rest =>
      rw [hl] at hcd
      have hk : k < s.msgs.length := by
        by_contra hk'
        push_neg at hk'
        rw [List.drop_eq_nil_of_le hk'] at hl
        exact List.noConfusion hl
      have hmo : m.offset = wrap64 (headOff s + k) := hcd.1
      have hho : headOff ⟨m :: rest, s.tailMsg⟩ = m.offset := by
        simp [headOff, headMsg]
      refine ⟨?_, ?_, ?_, ?_⟩
      · rw [hho, hmo]
        exact wrap64_range _
      · rw [hho]
        exact consecFrom_congr (by rw [hmo, wrap64_idem]) hcd
      · rw [hho]
        show s.tailMsg.offset = wrap64 (m.offset + (m :: rest).length)
        have hlr : (m :: rest).length = s.msgs.length - k := by
          rw [← hl, List.length_drop]
        rw [hmo, hlr, wrap64_wrap_add, ht]
        congr 1
        have : ((s.msgs.length - k : ℕ) : Int) = (s.msgs.length : Int) - k := by
          omega
        rw [this]
        ring
      · show ((m :: rest).length : Int) < 9223372036854775808
        have : (m :: rest).length = s.msgs.length - k := by
          rw [← hl, List.length_drop]
        rw [this]
        omega

lemma cleanupS_spec {s : QState} {cfg : QueueConfig} (now : Int)
    (h : WF s) (hrc0 : 0 ≤ cfg.retentionCount)
    (hrc1 : cfg.retentionCount < 9223372036854775808) :
    0 ≤ (cleanupS cfg now s).1 ∧
    (cleanupS cfg now s).1.toNat ≤ s.msgs.length ∧
    (cleanupS cfg now s).2 = ⟨s.msgs.drop (cleanupS cfg now s).1.toNat, s.tailMsg⟩ ∧
    WF (cleanupS cfg now s).2 ∧
    lengthNoLock s - cfg.retentionCount ≤ (cleanupS cfg now s).1 ∧
    (cleanupS cfg now s).1 = lengthNoLock s - lengthNoLock (cleanupS cfg now s).2 := by
  have hlen := WF_length h
  have hb : (s.msgs.length : Int) < 9223372036854775808 := h.2.2.2
  have hw : wrap64 (lengthNoLock s - cfg.retentionCount)
      = lengthNoLock s - cfg.retentionCount := by
    apply wrap64_eq_self
    exact ⟨by omega, by omega⟩
  have htR : max 0 (wrap64 (lengthNoLock s - cfg.retentionCount))
      = max 0 ((s.msgs.length : Int) - cfg.retentionCount) := by
    rw [hw, hlen]
  set tR : Int := max 0 ((s.msgs.length : Int) - cfg.retentionCount) with htRdef
  have htR0 : 0 ≤ tR := le_max_left _ _
  have htRle : tR.toNat ≤ s.msgs.length := by omega
  have hmain : cleanupS cfg now s
      = (tR + (cleanupLoop s.tailMsg.offset now cfg.retentionTime
                (s.msgs.drop tR.toNat)).1,
         ⟨(cleanupLoop s.tailMsg.offset now cfg.retentionTime
                (s.msgs.drop tR.toNat)).2, s.tailMsg⟩) := by
    simp only [cleanupS]
    rw [htR]
  obtain ⟨hl0, hl1, hl2⟩ := cleanupLoop_spec s.tailMsg.offset now cfg.retentionTime
      (s.msgs.drop tR.toNat)
  set c2 : Int := (cleanupLoop s.tailMsg.offset now cfg.retentionTime
      (s.msgs.drop tR.toNat)).1 with hc2def
  have hdl : (s.msgs.drop tR.toNat).length = s.msgs.length - tR.toNat :=
    List.length_drop _ _
  have hr1 : (cleanupS cfg now s).1 = tR + c2 := by rw [hmain]
  have htot : (tR + c2).toNat = tR.toNat + c2.toNat := by omega
  have hstate : (cleanupS cfg now s).2
      = ⟨s.msgs.drop (tR.toNat + c2.toNat), s.tailMsg⟩ := by
    rw [hmain]
    have : (cleanupLoop s.tailMsg.offset now cfg.retentionTime
        (s.msgs.drop tR.toNat)).2 = s.msgs.drop (tR.toNat + c2.toNat) := by
      rw [hl2, List.drop_drop, Nat.add_comm]
    rw [this]
  have hWF2 : WF (cleanupS cfg now s).2 := by
    rw [hstate]
    exact WF_drop h _
  have hlen2 : lengthNoLock (cleanupS cfg now s).2
      = ((s.msgs.length - (tR.toNat + c2.toNat) : ℕ) : Int) := by
    rw [WF_length hWF2, hstate, List.length_drop]
  have hle : tR.toNat + c2.toNat ≤ s.msgs.length := by omega
  refine ⟨?_, ?_, ?_, hWF2, ?_, ?_⟩
  · rw [hr1]; omega
  · rw [hr1, htot]; omega
  · rw [hstate, hr1, htot]
  · rw [hr1, hlen]; omega
  · rw [hr1, hlen2, hlen]
    omega

/-! ## Behaviour of the public operations on initialized states -/

lemma AddMany_eq {cfg : QueueConfig} (hac : cfg.autoCleanup = false)
    (s : QState) (vs : List String) (t : Int) :
    Queue.AddMany ⟨some s, cfg⟩ vs t = .ok ⟨some (addLoop t vs s), cfg⟩ := by
  simp [Queue.AddMany, hac]

lemma notEmpty_of_len {s : QState} (hlen : lengthNoLock s = s.msgs.length)
    (hne : s.msgs ≠ []) : isEmptyNoLock s = false := by
  rcases Bool.eq_false_or_eq_true (isEmptyNoLock s) with hbt | hbf
  · exfalso
    unfold isEmptyNoLock at hbt
    have hoff : (headMsg s).offset = s.tailMsg.offset := beq_iff_eq.mp hbt
    have h0 : lengthNoLock s = 0 := by
      unfold lengthNoLock
      rw [hoff]
      simp [wrap64]
    rw [hlen] at h0
    have : s.msgs.length = 0 := by exact_mod_cast h0
    exact hne (List.length_eq_zero.mp this)
  · exact hbf

lemma readMany_ok {cfg : QueueConfig} (hac : cfg.autoCleanup = false)
    {s : QState} (hlen : lengthNoLock s = s.msgs.length)
    (hb : (s.msgs.length : Int) < 9223372036854775808)
    (hne : s.msgs ≠ []) {limit : Int} (hpos : 0 < limit) (now : Int) :
    Queue.ReadMany ⟨some s, cfg⟩ limit now
      = .ok (s.msgs.take (min limit (s.msgs.length : Int)).toNat,
             ⟨some ⟨s.msgs.drop (min limit (s.msgs.length : Int)).toNat, s.tailMsg⟩,
              cfg⟩) := by
  have hEmpF := notEmpty_of_len hlen hne
  have hle : lengthNoLock s ≤ maxInt := by
    rw [hlen]
    unfold maxInt
    omega
  have hmin0 : ¬ (min limit (s.msgs.length : Int) < 0) := by omega
  have hwalk : ¬ (s.msgs.length < (min limit (s.msgs.length : Int)).toNat) := by
    omega
  have hle2 : ((s.msgs.length : Int) ≤ maxInt) := by
    unfold maxInt
    omega
  simp only [Queue.ReadMany, hac, Bool.false_eq_true, if_false,
    if_neg (not_le.mpr hpos), hEmpF, hlen]
  rw [if_pos hle2, if_neg hmin0, if_neg hwalk]

/-! ## The canonical states reached from a fresh queue by enqueues only -/

lemma goodState_new : goodState [] newQState := by
  refine ⟨rfl, rfl, rfl⟩

lemma goodState_msgs_length {V : List String} {s : QState} (h : goodState V s) :
    s.msgs.length = V.length := by
  have := h.1
  calc s.msgs.length = (s.msgs.map (fun m => m.val)).length :=
        (List.length_map _ _).symm
    _ = V.length := by rw [this]

lemma goodState_lenNoLock {V : List String} {s : QState} (h : goodState V s)
    (hb : (V.length : Int) < 9223372036854775808) :
    lengthNoLock s = s.msgs.length := by
  obtain ⟨hmap, hho, hto⟩ := h
  unfold lengthNoLock
  unfold headOff at hho
  rw [hho, hto, sub_zero, goodState_msgs_length ⟨hmap, hho, hto⟩]
  exact wrap64_eq_self ⟨by omega, by omega⟩

lemma goodState_addLoop : ∀ (vs : List String) {V : List String} {s : QState}
    (t : Int), goodState V s →
    ((V.length : Int) + vs.length < 9223372036854775808) →
    goodState (V ++ vs) (addLoop t vs s) := by
  intro vs
  induction vs with
  | nil =>
      intro V s t h _
      simpa [addLoop] using h
  | cons v rest ih =>
      intro V s t h hb
      obtain ⟨hmap, hho, hto⟩ := h
      show goodState (V ++ v :: rest) (addLoop t rest _)
      have hstep : goodState (V ++ [v])
          ⟨s.msgs ++ [⟨v, s.tailMsg.offset, t⟩],
           ⟨"", wrap64 (s.tailMsg.offset + 1), 0⟩⟩ := by
        refine ⟨?_, ?_, ?_⟩
        · simp [hmap]
        · rw [headOff_addOne]
          exact hho
        · show wrap64 (s.tailMsg.offset + 1) = ((V ++ [v]).length : Int)
          rw [hto]
          have hr : wrap64 ((V.length : Int) + 1) = (V.length : Int) + 1 := by
            apply wrap64_eq_self
            constructor
            · omega
            · simp only [List.length_cons] at hb
              push_cast at hb
              omega
          rw [hr]
          simp
      have hb2 : (((V ++ [v]).length : Int) + rest.length < 9223372036854775808) := by
        simp only [List.length_append, List.length_cons, List.length_nil] at hb ⊢
        push_cast at hb ⊢
        omega
      have := ih t hstep hb2
      simpa [List.append_assoc] using this

lemma runAdds_ok {cfg : QueueConfig} (hac : cfg.autoCleanup = false) :
    ∀ (bs : List (List String × Int)) {V : List String} {s : QState},
      goodState V s →
      ((V.length : Int) + ((bs.map Prod.fst).flatten.length : Int)
        < 9223372036854775808) →
      ∃ s', runAdds ⟨some s, cfg⟩ bs = .ok ⟨some s', cfg⟩ ∧
        goodState (V ++ (bs.map Prod.fst).flatten) s' := by
  intro bs
  induction bs with
  | nil =>
      intro V s h _
      exact ⟨s, rfl, by simpa using h⟩
  | cons b rest ih =>
      intro V s h hb
      have hjoin : ((b :: rest).map Prod.fst).flatten
          = b.1 ++ (rest.map Prod.fst).flatten := by
        simp
      have hb1 : (V.length : Int) + b.1.length < 9223372036854775808 := by
        rw [hjoin] at hb
        simp only [List.length_append] at hb
        push_cast at hb ⊢
        omega
      have hstep := goodState_addLoop b.1 b.2 h hb1
      have hb2 : (((V ++ b.1).length : Int)
          + (((rest.map Prod.fst).flatten.length : Int)) < 9223372036854775808) := by
        rw [hjoin] at hb
        simp only [List.length_append] at hb ⊢
        push_cast at hb ⊢
        omega
      obtain ⟨s', hrun, hgood⟩ := ih hstep hb2
      refine ⟨s', ?_, ?_⟩
      · show runAdds ⟨some s, cfg⟩ (b :: rest) = _
        unfold runAdds
        rw [AddMany_eq hac]
        exact hrun
      · rw [hjoin, ← List.append_assoc]
        exact hgood

/-! ## The claims -/

/-- C3: the claim says every public operation on a queue value not
produced by a constructor fails with `ErrImproperlyInitializedQueue`.
Evaluating the code at the zero-value queue shows that only `Add` and
`AddMany` perform the `tail == nil` check; `IsEmpty`, `Length`, `Read`,
`ReadMany`, `PeekNext` and `Cleanup` dereference a nil pointer
(panic) instead of returning the error. -/
theorem C3_uninitialized_operations :
    Queue.Add zeroQueue "asd" 0 = .err .improperlyInitialized ∧
    Queue.AddMany zeroQueue ["asd"] 0 = .err .improperlyInitialized ∧
    Queue.IsEmpty zeroQueue 0 = .panic ∧
    Queue.Length zeroQueue 0 = .panic ∧
    Queue.Read zeroQueue 0 = .panic ∧
    Queue.ReadMany zeroQueue 10 0 = .panic ∧
    Queue.PeekNext zeroQueue 0 = .panic ∧
    Queue.Cleanup zeroQueue 0 = .panic := by
  refine ⟨rfl, rfl, rfl, rfl, ?_, ?_, rfl, rfl⟩
  · decide
  · decide

/-- C10: for every queue value -- the zero-value queue included -- and
every non-positive limit, `ReadMany` returns `ErrInvalidLimit`: the
limit validation precedes the state access, so no other error or panic
can pre-empt it. -/
theorem C10_invalid_limit_precedence (q : Queue) (limit now : Int)
    (h : limit ≤ 0) : q.ReadMany limit now = .err .invalidLimit := by
  unfold Queue.ReadMany
  rw [if_pos h]

/-- Witness for C10 at the zero-value queue with limit 0. -/
theorem C10_witness :
    (0 : Int) ≤ 0 ∧ zeroQueue.ReadMany 0 5 = .err .invalidLimit :=
  ⟨le_refl 0, C10_invalid_limit_precedence zeroQueue 0 5 (le_refl 0)⟩

/-- C7: every `With`-builder returns a new config value;
`WithRetentionCount` / `WithRetentionTime` return `ErrInvalidConfig`
exactly when the argument is non-positive and return the receiver
unchanged in that case, and otherwise change only their field;
`WithName` and `WithAutoCleanup` accept any value and never fail. -/
theorem C7_config_builders :
    (∀ (c : QueueConfig) (n : Int),
        ((c.WithRetentionCount n).2 = some .invalidConfig ↔ n ≤ 0) ∧
        ((c.WithRetentionCount n).2 = none ↔ 0 < n) ∧
        (n ≤ 0 → (c.WithRetentionCount n).1 = c) ∧
        (0 < n → (c.WithRetentionCount n).1
            = { c with retentionCount := n })) ∧
    (∀ (c : QueueConfig) (d : Int),
        ((c.WithRetentionTime d).2 = some .invalidConfig ↔ d ≤ 0) ∧
        ((c.WithRetentionTime d).2 = none ↔ 0 < d) ∧
        (d ≤ 0 → (c.WithRetentionTime d).1 = c) ∧
        (0 < d → (c.WithRetentionTime d).1
            = { c with retentionTime := d })) ∧
    (∀ (c : QueueConfig) (nm : String),
        c.WithName nm = ({ c with name := nm }, none)) ∧
    (∀ (c : QueueConfig) (b : Bool),
        c.WithAutoCleanup b = ({ c with autoCleanup := b }, none)) := by
  refine ⟨?_, ?_, fun c nm => rfl, fun c b => rfl⟩
  · intro c n
    unfold QueueConfig.WithRetentionCount
    by_cases h : n ≤ 0
    · rw [if_pos h]
      exact ⟨by simp [h], by simp; omega, fun _ => rfl,
             fun hp => absurd hp (by omega)⟩
    · rw [if_neg h]
      exact ⟨by simp; omega, by simp; omega, fun hp => absurd hp h,
             fun _ => rfl⟩
  · intro c d
    unfold QueueConfig.WithRetentionTime
    by_cases h : d ≤ 0
    · rw [if_pos h]
      exact ⟨by simp [h], by simp; omega, fun _ => rfl,
             fun hp => absurd hp (by omega)⟩
    · rw [if_neg h]
      exact ⟨by simp; omega, by simp; omega, fun hp => absurd hp h,
             fun _ => rfl⟩

/-- Witness for C7 at concrete builder calls. -/
theorem C7_witness :
    (DefaultConfig.WithRetentionCount 0).2 = some .invalidConfig ∧
    (DefaultConfig.WithRetentionCount 0).1 = DefaultConfig ∧
    (DefaultConfig.WithRetentionTime 5).1
      = { DefaultConfig with retentionTime := 5 } :=
  ⟨((C7_config_builders.1 DefaultConfig 0).1).mpr (by norm_num),
   (C7_config_builders.1 DefaultConfig 0).2.2.1 (by norm_num),
   (C7_config_builders.2.1 DefaultConfig 5).2.2.2 (by norm_num)⟩

/-- C8: `Add(v)` is the same call as `AddMany([v])` (identical error and
resulting state), and `Read()` succeeds with a message and state exactly
when `ReadMany(1)` succeeds with a slice whose first element is that
message and the same state, and fails with an error exactly when
`ReadMany(1)` fails with that error. -/
theorem C8_add_read_delegation :
    (∀ (q : Queue) (v : String) (t : Int), q.Add v t = q.AddMany [v] t) ∧
    (∀ (q : Queue) (now : Int) (m : Message) (q' : Queue),
        q.Read now = .ok (m, q') ↔
          ∃ l, q.ReadMany 1 now = .ok (l, q') ∧ l.head? = some m) ∧
    (∀ (q : Queue) (now : Int) (e : QError),
        q.Read now = .err e ↔ q.ReadMany 1 now = .err e) := by
  refine ⟨fun q v t => rfl, ?_, ?_⟩
  · intro q now m q'
    unfold Queue.Read
    cases hr : q.ReadMany 1 now with
    | ok p =>
        obtain ⟨l, q2⟩ := p
        cases l with
        | nil => simp
        | cons x rest =>
            simp only [Outcome.ok.injEq, Prod.mk.injEq, List.head?_cons]
            constructor
            · rintro ⟨rfl, rfl⟩
              exact ⟨x :: rest, ⟨rfl, rfl⟩, rfl⟩
            · rintro ⟨l', ⟨hl, hq⟩, hh⟩
              subst hl
              simp only [List.head?_cons, Option.some.injEq] at hh
              exact ⟨hh, hq⟩
    | err e' => simp
    | panic => simp
  · intro q now e
    unfold Queue.Read
    cases hr : q.ReadMany 1 now with
    | ok p =>
        obtain ⟨l, q2⟩ := p
        cases l with
        | nil => simp
        | cons x rest => simp
    | err e' => simp
    | panic => simp

/-- Witness for C8 at concrete queues. -/
theorem C8_witness :
    Queue.Add zeroQueue "x" 0 = Queue.AddMany zeroQueue ["x"] 0 ∧
    (NewQueue.Read 0 = .err .queueIsEmpty ↔
      NewQueue.ReadMany 1 0 = .err .queueIsEmpty) :=
  ⟨C8_add_read_delegation.1 zeroQueue "x" 0,
   C8_add_read_delegation.2.2 NewQueue 0 .queueIsEmpty⟩

/-- C5: offsets start at 0 for the first enqueued message and increase
by exactly 1 per message in the unsigned mod-2^64 sense; for the queue
`qWrapA` whose head/tail offsets carry the unsigned values
(2^64 - 2, 2^64 - 1), `Length` is 1 and `IsEmpty` is false, and after
its message is read the next enqueue assigns the wrapped tail offset 0,
with length and emptiness still reported correctly. -/
theorem C5_offset_wraparound :
    (∀ (cfg : QueueConfig) (v : String) (t : Int), cfg.autoCleanup = false →
        Queue.AddMany (NewQueueWithConfig cfg) [v] t
          = .ok ⟨some ⟨[⟨v, 0, t⟩], ⟨"", 1, 0⟩⟩, cfg⟩) ∧
    (∀ (s : QState) (v : String) (t : Int),
        (addLoop t [v] s).msgs = s.msgs ++ [⟨v, s.tailMsg.offset, t⟩] ∧
        (addLoop t [v] s).tailMsg.offset = wrap64 (s.tailMsg.offset + 1)) ∧
    (∀ x : Int, toUnsigned (wrap64 (x + 1))
        = (toUnsigned x + 1) % 18446744073709551616) ∧
    (toUnsigned (-2) = 18446744073709551614 ∧
     toUnsigned (-1) = 18446744073709551615 ∧
     Queue.Length qWrapA 7 = .ok (1, qWrapA) ∧
     Queue.IsEmpty qWrapA 7 = .ok (false, qWrapA) ∧
     Queue.Read qWrapA 7 = .ok (⟨"a", -2, 5⟩, qWrapB) ∧
     Queue.AddMany qWrapB ["b"] 9 = .ok qWrapC ∧
     qWrapC.st = some ⟨[⟨"b", -1, 9⟩], ⟨"", 0, 0⟩⟩ ∧
     Queue.Length qWrapC 9 = .ok (1, qWrapC) ∧
     Queue.IsEmpty qWrapC 9 = .ok (false, qWrapC)) := by
  refine ⟨?_, ?_, ?_, ?_⟩
  · intro cfg v t hac
    have h1 : wrap64 1 = 1 := by decide
    simp [Queue.AddMany, NewQueueWithConfig, newQState, addLoop, hac, h1]
  · intro s v t
    exact ⟨rfl, rfl⟩
  · intro x
    unfold toUnsigned wrap64
    omega
  · refine ⟨by decide, by decide, by decide, by decide, by decide,
            by decide, by decide, by decide, by decide⟩

/-- Witness for C5 at one concrete enqueue. -/
theorem C5_witness :
    DefaultConfig.autoCleanup = false ∧
    Queue.AddMany (NewQueueWithConfig DefaultConfig) ["x"] 3
      = .ok ⟨some ⟨[⟨"x", 0, 3⟩], ⟨"", 1, 0⟩⟩, DefaultConfig⟩ :=
  ⟨rfl, C5_offset_wraparound.1 DefaultConfig "x" 3 rfl⟩

/-- C1: from a properly constructed queue with autoCleanup disabled,
after any non-empty sequence of `AddMany` batches (`Add v` being the
same call as `AddMany [v]`) with no interleaved reads, `ReadMany(n)`
for `n` the total number of enqueued values succeeds, returns exactly
`n` messages carrying the values in enqueue order, and leaves the queue
empty. -/
theorem C1_fifo_order (cfg : QueueConfig) (bs : List (List String × Int))
    (now now2 : Int) (hac : cfg.autoCleanup = false)
    (hne : (bs.map Prod.fst).flatten ≠ [])
    (hlt : (((bs.map Prod.fst).flatten.length : ℕ) : Int)
      < 9223372036854775808) :
    ∃ (s' : QState) (msgs : List Message) (q' : Queue),
      runAdds (NewQueueWithConfig cfg) bs = .ok ⟨some s', cfg⟩ ∧
      Queue.ReadMany ⟨some s', cfg⟩
          (((bs.map Prod.fst).flatten.length : ℕ) : Int) now = .ok (msgs, q') ∧
      msgs.map (fun m => m.val) = (bs.map Prod.fst).flatten ∧
      msgs.length = (bs.map Prod.fst).flatten.length ∧
      q'.IsEmpty now2 = .ok (true, q') := by
  set V := (bs.map Prod.fst).flatten with hV
  have hb0 : ((([] : List String).length : ℕ) : Int) + ((V.length : ℕ) : Int)
      < 9223372036854775808 := by simpa using hlt
  obtain ⟨s', hrun, hgood⟩ := runAdds_ok hac bs goodState_new hb0
  rw [List.nil_append, ← hV] at hgood
  have hml : s'.msgs.length = V.length := goodState_msgs_length hgood
  have hlen := goodState_lenNoLock hgood hlt
  have hb : ((s'.msgs.length : ℕ) : Int) < 9223372036854775808 := by
    rw [hml]
    exact hlt
  have hVpos : 0 < V.length := List.length_pos.mpr hne
  have hneM : s'.msgs ≠ [] := by
    apply List.length_pos.mp
    omega
  have hpos : (0 : Int) < ((V.length : ℕ) : Int) := by exact_mod_cast hVpos
  have hRM := readMany_ok hac hlen hb hneM hpos now
  have hmin : (min ((V.length : ℕ) : Int) ((s'.msgs.length : ℕ) : Int)).toNat
      = s'.msgs.length := by
    rw [hml]
    omega
  rw [hmin, List.take_length, List.drop_length] at hRM
  refine ⟨s', s'.msgs, ⟨some ⟨[], s'.tailMsg⟩, cfg⟩, hrun, hRM, hgood.1,
          hml, ?_⟩
  simp [Queue.IsEmpty, hac, isEmptyNoLock, headMsg]

/-- Witness for C1: two batches, values a, b then c. -/
theorem C1_witness :
    ∃ (s' : QState) (msgs : List Message) (q' : Queue),
      runAdds (NewQueueWithConfig DefaultConfig) [(["a", "b"], 0), (["c"], 1)]
        = .ok ⟨some s', DefaultConfig⟩ ∧
      Queue.ReadMany ⟨some s', DefaultConfig⟩ 3 5 = .ok (msgs, q') ∧
      msgs.map (fun m => m.val) = ["a", "b", "c"] ∧
      msgs.length = 3 ∧
      q'.IsEmpty 6 = .ok (true, q') := by
  have h := C1_fifo_order DefaultConfig [(["a", "b"], 0), (["c"], 1)] 5 6 rfl
      (by decide) (by decide)
  simpa using h

/-- C2: `ReadMany(limit)` returns `ErrInvalidLimit` exactly when
`limit ≤ 0` (first conjunct gives one direction; on a positive limit the
other cases below return something else); on a properly constructed
empty queue every positive limit yields `ErrQueueIsEmpty` (the
emptiness check fires even though the clamp reduces the effective limit
to 0); and on a non-empty queue of length `L` (with no auto-cleanup
interfering) it returns exactly `min(limit, L)` messages with no
error. -/
theorem C2_readMany_contract :
    (∀ (q : Queue) (limit now : Int), limit ≤ 0 →
        q.ReadMany limit now = .err .invalidLimit) ∧
    (∀ (cfg : QueueConfig) (s : QState) (limit now : Int),
        s.msgs = [] → 0 < limit → 0 ≤ cfg.retentionCount →
        Queue.ReadMany ⟨some s, cfg⟩ limit now = .err .queueIsEmpty) ∧
    (∀ (cfg : QueueConfig) (s : QState) (limit now : Int),
        cfg.autoCleanup = false → WF s → s.msgs ≠ [] → 0 < limit →
        ∃ (msgs : List Message) (q' : Queue),
          Queue.ReadMany ⟨some s, cfg⟩ limit now = .ok (msgs, q') ∧
          (msgs.length : Int) = min limit (lengthNoLock s)) := by
  refine ⟨?_, ?_, ?_⟩
  · intro q limit now h
    unfold Queue.ReadMany
    rw [if_pos h]
  · intro cfg s limit now hm hpos hrc0
    have hclean : (cleanupS cfg now s).2 = ⟨[], s.tailMsg⟩ := by
      simp only [cleanupS, hm, List.drop_nil, cleanupLoop]
    have hempty1 : isEmptyNoLock ⟨([] : List Message), s.tailMsg⟩ = true := by
      simp [isEmptyNoLock, headMsg]
    have hempty0 : isEmptyNoLock s = true := by
      simp [isEmptyNoLock, headMsg, hm]
    by_cases hac : cfg.autoCleanup
    · simp [Queue.ReadMany, if_neg (not_le.mpr hpos), hac, hclean, hempty1]
    · have hacf : cfg.autoCleanup = false := by
        simpa using hac
      simp [Queue.ReadMany, if_neg (not_le.mpr hpos), hacf, hempty0]
  · intro cfg s limit now hac hWF hne hpos
    have hlen := WF_length hWF
    have hb := hWF.2.2.2
    have h := readMany_ok hac hlen hb hne hpos now
    refine ⟨_, _, h, ?_⟩
    rw [List.length_take, hlen]
    omega

/-- Witness for C2: the three cases at concrete queues. -/
theorem C2_witness :
    zeroQueue.ReadMany (-3) 0 = .err .invalidLimit ∧
    Queue.ReadMany ⟨some newQState, DefaultConfig⟩ 4 0 = .err .queueIsEmpty ∧
    (∃ (msgs : List Message) (q' : Queue),
      Queue.ReadMany
          ⟨some ⟨[⟨"a", 0, 0⟩, ⟨"b", 1, 0⟩], ⟨"", 2, 0⟩⟩, DefaultConfig⟩ 5 0
        = .ok (msgs, q') ∧
      (msgs.length : Int)
        = min 5 (lengthNoLock ⟨[⟨"a", 0, 0⟩, ⟨"b", 1, 0⟩], ⟨"", 2, 0⟩⟩)) :=
  ⟨C2_readMany_contract.1 zeroQueue (-3) 0 (by norm_num),
   C2_readMany_contract.2.1 DefaultConfig newQState 4 0 rfl (by norm_num)
     (by decide),
   C2_readMany_contract.2.2 DefaultConfig ⟨[⟨"a", 0, 0⟩, ⟨"b", 1, 0⟩], ⟨"", 2, 0⟩⟩
     5 0 rfl (by decide) (by decide) (by norm_num)⟩

/-- C6: with autoCleanup enabled, immediately after any `AddMany` (and
so any `Add`) returns, the queue's length is at most `retentionCount`;
in particular with retentionCount 1, enqueueing ["a", "b"] in one call
leaves exactly the one message "b" without an explicit `Cleanup` call. -/
theorem C6_autocleanup_bound :
    (∀ (cfg : QueueConfig) (s : QState) (vs : List String) (t : Int),
        cfg.autoCleanup = true → 0 ≤ cfg.retentionCount →
        cfg.retentionCount < 9223372036854775808 → WF s →
        ((s.msgs.length : Int) + vs.length < 9223372036854775808) →
        ∃ (s2 : QState),
          Queue.AddMany ⟨some s, cfg⟩ vs t = .ok ⟨some s2, cfg⟩ ∧
          lengthNoLock s2 ≤ cfg.retentionCount) ∧
    (((DefaultConfig.WithRetentionCount 1).1.WithAutoCleanup true).1
        = cfgAuto ∧
     Queue.AddMany (NewQueueWithConfig cfgAuto) ["a", "b"] 0 = .ok qAuto ∧
     qAuto.st = some ⟨[⟨"b", 1, 0⟩], ⟨"", 2, 0⟩⟩ ∧
     Queue.Length qAuto 0 = .ok (1, qAuto)) := by
  constructor
  · intro cfg s vs t hac hrc0 hrc1 hWF hb
    obtain ⟨hWF1, hlen1, _⟩ := WF_addLoop hWF vs t hb
    obtain ⟨h0, h1, hstate, hWF2, hge, heq⟩ := cleanupS_spec t hWF1 hrc0 hrc1
    refine ⟨(cleanupS cfg t (addLoop t vs s)).2, ?_, ?_⟩
    · simp [Queue.AddMany, hac]
    · omega
  · refine ⟨by decide, by decide, rfl, by decide⟩

/-- Witness for C6 at a fresh queue with `cfgAuto`. -/
theorem C6_witness :
    ∃ (s2 : QState),
      Queue.AddMany ⟨some newQState, cfgAuto⟩ ["a", "b"] 0
        = .ok ⟨some s2, cfgAuto⟩ ∧
      lengthNoLock s2 ≤ cfgAuto.retentionCount :=
  C6_autocleanup_bound.1 cfgAuto newQState ["a", "b"] 0 rfl (by decide)
    (by decide) (by decide) (by decide)

/-- C9: the count returned by `Cleanup` equals the length before minus
the length after, and the remaining messages are exactly the suffix of
the previous message sequence obtained by dropping that many nodes from
the head; the sentinel tail is untouched. -/
theorem C9_cleanup_accounting (cfg : QueueConfig) (s : QState) (now : Int)
    (hWF : WF s) (hrc0 : 0 ≤ cfg.retentionCount)
    (hrc1 : cfg.retentionCount < 9223372036854775808) :
    ∃ (removed : Int) (s2 : QState),
      Queue.Cleanup ⟨some s, cfg⟩ now = .ok (removed, ⟨some s2, cfg⟩) ∧
      0 ≤ removed ∧
      removed = lengthNoLock s - lengthNoLock s2 ∧
      s2.msgs = s.msgs.drop removed.toNat ∧
      s2.tailMsg = s.tailMsg := by
  obtain ⟨h0, h1, hstate, hWF2, hge, heq⟩ := cleanupS_spec now hWF hrc0 hrc1
  refine ⟨(cleanupS cfg now s).1, (cleanupS cfg now s).2, rfl, h0, heq,
          ?_, ?_⟩
  · rw [hstate]
  · rw [hstate]

/-- Witness for C9: a two-message queue with retention count 1 (the
config `cfgAuto`): cleanup removes one message. -/
theorem C9_witness :
    ∃ (removed : Int) (s2 : QState),
      Queue.Cleanup
          ⟨some ⟨[⟨"a", 0, 0⟩, ⟨"b", 1, 0⟩], ⟨"", 2, 0⟩⟩, cfgAuto⟩ 0
        = .ok (removed, ⟨some s2, cfgAuto⟩) ∧
      0 ≤ removed ∧
      removed = lengthNoLock ⟨[⟨"a", 0, 0⟩, ⟨"b", 1, 0⟩], ⟨"", 2, 0⟩⟩
          - lengthNoLock s2 ∧
      s2.msgs = ([⟨"a", 0, 0⟩, ⟨"b", 1, 0⟩] : List Message).drop removed.toNat ∧
      s2.tailMsg = ⟨"", 2, 0⟩ :=
  C9_cleanup_accounting cfgAuto ⟨[⟨"a", 0, 0⟩, ⟨"b", 1, 0⟩], ⟨"", 2, 0⟩⟩ 0
    (by decide) (by decide) (by decide)

lemma cleanupLoop_eq_spec {toff now rt : Int} :
    ∀ {l : List Message}, (∀ m ∈ l, m.offset < toff) →
      cleanupLoop toff now rt l = specCleanupLoop toff now rt l := by
  intro l
  induction l with
  | nil => intro _; rfl
  | cons m rest ih =>
      intro hmem
      have hm : m.offset < toff := hmem m (List.mem_cons_self m rest)
      have hr := ih (fun x hx => hmem x (List.mem_cons_of_mem m hx))
      simp only [cleanupLoop, specCleanupLoop]
      by_cases hcond : now - m.logAppendTime > rt
      · rw [if_pos ⟨hm, hcond⟩, if_pos ⟨hm.ne, hcond⟩, hr]
      · rw [if_neg (fun hc => hcond hc.2), if_neg (fun hc => hcond hc.2)]

lemma NoWrapWF_length {s : QState} (h : NoWrapWF s) :
    lengthNoLock s = s.msgs.length := by
  obtain ⟨hce, ht, h1, h2, h3⟩ := h
  unfold lengthNoLock
  rw [ht]
  have heq : headOff s + (s.msgs.length : Int) - (headMsg s).offset
      = (s.msgs.length : Int) := by
    unfold headOff
    ring
  rw [heq]
  exact wrap64_eq_self ⟨by omega, h3⟩

/-- C4 (amended): `Cleanup` performs the two passes the claim describes
and never modifies the tail, with one correction: the second pass is
guarded by `head.offset < tail.offset` under signed 64-bit comparison,
not by `head.offset ≠ tail.offset`.  On every state whose offsets have
not wrapped past the signed 64-bit boundary (`NoWrapWF`, true until
2^63 lifetime enqueues) the two guards coincide and the code equals the
claimed algorithm `specCleanup`. -/
theorem C4_cleanup_two_passes (cfg : QueueConfig) (s : QState) (now : Int)
    (hnw : NoWrapWF s) (hrc0 : 0 ≤ cfg.retentionCount)
    (hrc1 : cfg.retentionCount < 9223372036854775808) :
    cleanupS cfg now s = specCleanup cfg now s ∧
    (cleanupS cfg now s).2.tailMsg = s.tailMsg ∧
    Queue.Cleanup ⟨some s, cfg⟩ now
      = .ok ((specCleanup cfg now s).1, ⟨some (specCleanup cfg now s).2, cfg⟩) := by
  have hlen := NoWrapWF_length hnw
  have hb := hnw.2.2.2.2
  have hw : wrap64 (lengthNoLock s - cfg.retentionCount)
      = lengthNoLock s - cfg.retentionCount := by
    rw [hlen]
    exact wrap64_eq_self ⟨by omega, by omega⟩
  have hmem : ∀ k : ℕ, ∀ m ∈ s.msgs.drop k, m.offset < s.tailMsg.offset := by
    intro k m hm
    have hin := consecExact_offsets hnw.1 m (List.mem_of_mem_drop hm)
    rw [hnw.2.1]
    omega
  have hmain : cleanupS cfg now s = specCleanup cfg now s := by
    simp only [cleanupS, specCleanup]
    rw [hw, cleanupLoop_eq_spec
      (hmem (max 0 (lengthNoLock s - cfg.retentionCount)).toNat)]
  refine ⟨hmain, rfl, ?_⟩
  simp only [Queue.Cleanup]
  rw [hmain]

/-- Witness for C4's amended statement at a concrete non-wrapped state:
two messages, retention count 1, so both passes run (one eviction by
count, one by age with the tiny retention time of `cfgAge`). -/
theorem C4_witness :
    cleanupS ⟨"", 1, 1, false⟩ 10 ⟨[⟨"a", 0, 0⟩, ⟨"b", 1, 0⟩], ⟨"", 2, 0⟩⟩
        = specCleanup ⟨"", 1, 1, false⟩ 10
            ⟨[⟨"a", 0, 0⟩, ⟨"b", 1, 0⟩], ⟨"", 2, 0⟩⟩ ∧
    (cleanupS ⟨"", 1, 1, false⟩ 10
        ⟨[⟨"a", 0, 0⟩, ⟨"b", 1, 0⟩], ⟨"", 2, 0⟩⟩).2.tailMsg = ⟨"", 2, 0⟩ :=
  ⟨(C4_cleanup_two_passes ⟨"", 1, 1, false⟩
      ⟨[⟨"a", 0, 0⟩, ⟨"b", 1, 0⟩], ⟨"", 2, 0⟩⟩ 10 (by decide) (by decide)
      (by decide)).1,
   (C4_cleanup_two_passes ⟨"", 1, 1, false⟩
      ⟨[⟨"a", 0, 0⟩, ⟨"b", 1, 0⟩], ⟨"", 2, 0⟩⟩ 10 (by decide) (by decide)
      (by decide)).2.1⟩

/-- C4 counterexample: `sBoundary` is a well-formed (reachable-shape)
one-message queue state whose offsets straddle the signed 64-bit
boundary; its message is far older than the retention time of `cfgAge`,
yet the code's cleanup removes nothing (`2^63 - 1 < -2^63` is false)
while the claim's `≠`-guarded algorithm removes it. -/
theorem C4_counterexample :
    WF sBoundary ∧
    lengthNoLock sBoundary = 1 ∧
    (cleanupS cfgAge 10 sBoundary).1 = 0 ∧
    (specCleanup cfgAge 10 sBoundary).1 = 1 ∧
    cleanupS cfgAge 10 sBoundary ≠ specCleanup cfgAge 10 sBoundary ∧
    Queue.Cleanup ⟨some sBoundary, cfgAge⟩ 10
      = .ok (0, ⟨some sBoundary, cfgAge⟩) := by
  refine ⟨by decide, by decide, by decide, by decide, by decide, by decide⟩
